import Mathlib

/-!
Shallow embedding of the LZW codec in `lzw.py` (pavel-jaks/lzw).

Bytes are modelled as natural numbers (0..255 in every reachable state),
byte strings as `List Nat`, and the source's `Bits` objects as `List Bool`
holding the bits most-significant first.  Python exceptions are modelled by
`Except`/`Option` results; the decompression loop, whose termination the
source does not guarantee, takes explicit fuel and returns `none` when the
fuel is exhausted.
-/

set_option maxRecDepth 100000

namespace LZW

/-- Bits.__int__ (src/lzw.py:62-71): the integer value of a bit list, MSB first. -/
def bitsToNat (bits : List Bool) : Nat :=
  bits.foldl (fun acc b => 2 * acc + (if b then 1 else 0)) 0

/-- Helper for `natToBits`: repeated division by two, MSB first, with structural
fuel (the fuel `n` always suffices since `n / 2` halves at every step). -/
def natToBitsGo : Nat → Nat → List Bool
  | 0, _ => []
  | fuel + 1, n => if n = 0 then [] else natToBitsGo fuel (n / 2) ++ [n % 2 == 1]

/-- Bits.__init__ on an int (src/lzw.py:36-42): the binary digits of `n`, MSB
first, as produced by Python's format string; `0` yields the single digit list
`[false]`. -/
def natToBits (n : Nat) : List Bool :=
  if n = 0 then [false] else natToBitsGo n n

/-- Bits.binary_length (src/lzw.py:51-60): the largest `i` with `bits[-i]`
true, i.e. the length after discarding the leading false bits. -/
def binaryLength (bits : List Bool) : Nat :=
  (bits.dropWhile (fun b => b == false)).length

/-- CompressionEngine.pad (src/lzw.py:237-249): right-align `bits` in a field
of `length` bits, filling the front with false bits (the effect of the
source's copy loop whenever `bits.length ≤ length`, which holds at every call
site in `compress`). -/
def pad (bits : List Bool) (length : Nat) : List Bool :=
  List.replicate (length - bits.length) false ++ bits

/-- CompressionDictionary (src/lzw.py:74-142): a mapping from multi-byte words
to their code bits, plus the last used code.  The Python dict is modelled as
an association list with the newest binding in front. -/
structure CompressionDictionary where
  dict : List (List Nat × List Bool)
  last_used_code : Nat
deriving Repr, DecidableEq

/-- CompressionDictionary.__init__ (src/lzw.py:81-86). -/
def CompressionDictionary.init : CompressionDictionary := ⟨[], 257⟩

/-- CompressionDictionary.DICT_SIZE (src/lzw.py:79). -/
def CompressionDictionary.DICT_SIZE : Nat := 12

/-- CompressionDictionary.__getitem__ (src/lzw.py:88-98) for a bytes key:
single bytes map to their own value, other keys are looked up in the dict
(`none` models the KeyError on a missing key).  The `ConstantCodes` branch is
inlined at the call sites as `natToBits 256` / `natToBits 257`. -/
def CompressionDictionary.getItem (d : CompressionDictionary) (key : List Nat) :
    Option (List Bool) :=
  if key.length = 1 then some (natToBits (key.headD 0))
  else d.dict.lookup key

/-- CompressionDictionary.next_code (src/lzw.py:100-106): increments
last_used_code and returns the new value together with the mutated state. -/
def CompressionDictionary.next_code (d : CompressionDictionary) :
    Nat × CompressionDictionary :=
  (d.last_used_code + 1, ⟨d.dict, d.last_used_code + 1⟩)

/-- CompressionDictionary.add (src/lzw.py:108-117): next_code mutates the
state first; if the new code needs more than DICT_SIZE bits an OverflowError
is raised, modelled as `Except.error` carrying the already-mutated state
(last_used_code incremented, no entry inserted). -/
def CompressionDictionary.add (d : CompressionDictionary) (new_key : List Nat) :
    Except CompressionDictionary CompressionDictionary :=
  let p := d.next_code
  let new_bits := natToBits p.1
  if CompressionDictionary.DICT_SIZE < new_bits.length then
    Except.error p.2
  else
    Except.ok ⟨(new_key, new_bits) :: p.2.dict, p.2.last_used_code⟩

/-- CompressionDictionary.__contains__ (src/lzw.py:119-127). -/
def CompressionDictionary.containsWord (d : CompressionDictionary) (item : List Nat) :
    Bool :=
  if item.length = 1 then true else (d.dict.lookup item).isSome

/-- CompressionDictionary.is_full (src/lzw.py:129-134). -/
def CompressionDictionary.is_full (d : CompressionDictionary) : Bool :=
  decide (CompressionDictionary.DICT_SIZE < (natToBits (d.last_used_code + 1)).length)

/-- CompressionDictionary.clear (src/lzw.py:136-142). -/
def CompressionDictionary.clear (_d : CompressionDictionary) : CompressionDictionary :=
  ⟨[], 257⟩

/-- CompressionBuffer.bits_to_bytes (src/lzw.py:157-171) at its only call
site, where the list has exactly 8 bits (the source's length-divisibility
check cannot fire there): the byte value of the bits. -/
def bits_to_bytes (bits : List Bool) : Nat := bitsToNat bits

/-- CompressionBuffer (src/lzw.py:145-192): bytes written so far plus the
pending bits that do not yet fill a byte. -/
structure CompressionBuffer where
  written : List Nat
  not_written_bits : List Bool
deriving Repr, DecidableEq

/-- CompressionBuffer.append (src/lzw.py:173-183): push the bits one by one,
flushing a byte whenever eight bits are pending. -/
def CompressionBuffer.append (b : CompressionBuffer) (bits : List Bool) :
    CompressionBuffer :=
  bits.foldl
    (fun acc bit =>
      let nw := acc.not_written_bits ++ [bit]
      if nw.length = 8 then ⟨acc.written ++ [bits_to_bytes nw], []⟩
      else ⟨acc.written, nw⟩)
    b

/-- CompressionBuffer.flush (src/lzw.py:185-192): complete the final byte
with false bits. -/
def CompressionBuffer.flush (b : CompressionBuffer) : CompressionBuffer :=
  if b.not_written_bits.length = 0 then b
  else b.append (List.replicate (8 - b.not_written_bits.length) false)

/-- ReaderBuffer (src/lzw.py:195-223): the unread tail of the file beyond the
current buffer, the index into the buffer, the buffer size, and the buffered
bytes. -/
structure ReaderBuffer where
  in_file : List Nat
  current_index : Nat
  buffer_size : Nat
  current_bytes : List Nat
deriving Repr, DecidableEq

/-- ReaderBuffer.__init__ (src/lzw.py:199-208): read one buffer up front. -/
def ReaderBuffer.init (in_file : List Nat) (buffer_size : Nat) : ReaderBuffer :=
  ⟨in_file.drop buffer_size, 0, buffer_size, in_file.take buffer_size⟩

/-- ReaderBuffer.next_bytes (src/lzw.py:210-223).  The outer `none` models the
IndexError of `current_bytes[current_index]`; the inner `Option Nat` is the
source's `Union[bytes, None]` result (a single byte, or None at end of
input). -/
def ReaderBuffer.next_bytes (s : ReaderBuffer) :
    Option (Option Nat × ReaderBuffer) :=
  if s.current_index = s.current_bytes.length ∧ s.current_index < s.buffer_size then
    some (none, s)
  else
    match s.current_bytes.get? s.current_index with
    | none => none
    | some foo =>
      if s.current_index = s.buffer_size - 1 then
        some (some foo,
          ⟨s.in_file.drop s.buffer_size, 0, s.buffer_size, s.in_file.take s.buffer_size⟩)
      else
        some (some foo, ⟨s.in_file, s.current_index + 1, s.buffer_size, s.current_bytes⟩)

/-- Observation of `n` successive next_bytes calls; `none` if any call raises
IndexError. -/
def ReaderBuffer.yieldsFrom : ReaderBuffer → Nat → Option (List (Option Nat))
  | _, 0 => some []
  | s, n + 1 =>
    match s.next_bytes with
    | none => none
    | some (b, s2) =>
      match ReaderBuffer.yieldsFrom s2 n with
      | none => none
      | some rest => some (b :: rest)

/-- The bytes a ReaderBuffer state has yet to yield. -/
def ReaderBuffer.unread (s : ReaderBuffer) : List Nat :=
  s.current_bytes.drop s.current_index ++ s.in_file

/-- State invariant of ReaderBuffer maintained by init and next_bytes. -/
def ReaderInv (s : ReaderBuffer) : Prop :=
  1 ≤ s.buffer_size ∧ s.current_index < s.buffer_size ∧
  s.current_index ≤ s.current_bytes.length ∧
  s.current_bytes.length ≤ s.buffer_size ∧
  (s.current_bytes.length < s.buffer_size → s.in_file = [])

/-- The inner if/else of the compress loop for a word that is not in the
dictionary (src/lzw.py:273-283): either the dictionary is full, in which case
the current word is emitted at `current_padding` bits, the CLEAR code 256 is
emitted at `current_padding + 1` bits, the dictionary is cleared and the
padding reset to 9; or the current word is emitted, the new word added, and
the padding bumped when the new code's binary length exceeds it.  Returns the
new dictionary, output buffer and padding. -/
def compressMissStep (dict : CompressionDictionary) (out_buffer : CompressionBuffer)
    (current_padding : Nat) (current_word word : List Nat) :
    Except String (CompressionDictionary × CompressionBuffer × Nat) :=
  if dict.is_full then
    match dict.getItem current_word with
    | none => Except.error "KeyError"
    | some cw_bits =>
      let ob := (out_buffer.append (pad cw_bits current_padding)).append
        (pad (natToBits 256) (current_padding + 1))
      Except.ok (dict.clear, ob, 9)
  else
    match dict.getItem current_word with
    | none => Except.error "KeyError"
    | some cw_bits =>
      let ob := out_buffer.append (pad cw_bits current_padding)
      match dict.add word with
      | Except.error _ => Except.error "OverflowError"
      | Except.ok dict2 =>
        match dict2.getItem word with
        | none => Except.error "KeyError"
        | some w_bits =>
          let p :=
            if current_padding < binaryLength w_bits then current_padding + 1
            else current_padding
          Except.ok (dict2, ob, p)

/-- The while loop and epilogue of CompressionEngine.compress
(src/lzw.py:267-290), with structural fuel (one unit per loop iteration; the
fuel `input.length + 1` used by `compress` always suffices because every
iteration consumes one byte from the reader). -/
def compressLoop :
    Nat → CompressionDictionary → ReaderBuffer → CompressionBuffer →
    Option (List Nat) → Option Nat → Nat → Except String (List Nat)
  | 0, _, _, _, _, _, _ => Except.error "FUEL"
  | fuel + 1, dict, rb, ob, current_word, current_byte, current_padding =>
    match current_byte with
    | none =>
      match current_word with
      | none => Except.error "TypeError"
      | some cw =>
        match dict.getItem cw with
        | none => Except.error "KeyError"
        | some cw_bits =>
          let ob := ob.append (pad cw_bits current_padding)
          let ob := ob.append (pad (natToBits 257) current_padding)
          Except.ok (ob.flush).written
    | some b =>
      match current_word with
      | none => Except.error "TypeError"
      | some cw =>
        let word := cw ++ [b]
        if dict.containsWord word then
          match rb.next_bytes with
          | none => Except.error "IndexError"
          | some (nb, rb2) => compressLoop fuel dict rb2 ob (some word) nb current_padding
        else
          match compressMissStep dict ob current_padding cw word with
          | Except.error e => Except.error e
          | Except.ok (dict2, ob2, p2) =>
            match rb.next_bytes with
            | none => Except.error "IndexError"
            | some (nb, rb2) => compressLoop fuel dict2 rb2 ob2 (some [b]) nb p2

/-- CompressionEngine.compress (src/lzw.py:251-290) on a byte list, returning
the compressed byte list or the exception the source would raise. -/
def compress (input : List Nat) : Except String (List Nat) :=
  let rb := ReaderBuffer.init input (1024 * 1024)
  match rb.next_bytes with
  | none => Except.error "IndexError"
  | some (b1, rb1) =>
    let current_word := b1.map (fun b => [b])
    match rb1.next_bytes with
    | none => Except.error "IndexError"
    | some (b2, rb2) =>
      compressLoop (input.length + 1) CompressionDictionary.init rb2 ⟨[], []⟩
        current_word b2 9

/-- Discriminator for compression results. -/
def isOkResult : Except String (List Nat) → Bool
  | Except.ok _ => true
  | Except.error _ => false

/-- DecompressionReaderBuffer.add_bytes for a single byte
(src/lzw.py:306-317): the byte's bits padded to eight, MSB first. -/
def byteToBits (byte : Nat) : List Bool :=
  List.replicate (8 - (natToBits byte).length) false ++ natToBits byte

/-- DecompressionReaderBuffer (src/lzw.py:293-334): the unread file bytes and
the bits already pulled from the file but not yet yielded. -/
structure DecompressionReaderBuffer where
  in_file : List Nat
  not_yielded_bits : List Bool
deriving Repr, DecidableEq

/-- The while loop of next_bits (src/lzw.py:326-330): read bytes one at a
time into the bit backlog until `bits_count` bits are available or the file
is exhausted.  Returns the remaining file and the grown backlog. -/
def DecompressionReaderBuffer.fill (bits_count : Nat) :
    List Nat → List Bool → List Nat × List Bool
  | [], acc => ([], acc)
  | b :: rest, acc =>
    if acc.length < bits_count then
      DecompressionReaderBuffer.fill bits_count rest (acc ++ byteToBits b)
    else (b :: rest, acc)

/-- DecompressionReaderBuffer.next_bits (src/lzw.py:319-334).  The result is
declared `Union[Bits, None]` in the source, but the body always returns a
Bits object: bits it could not obtain from the source stay false.  The
embedding therefore always produces `some`. -/
def DecompressionReaderBuffer.next_bits (s : DecompressionReaderBuffer)
    (bits_count : Nat) : Option (List Bool) × DecompressionReaderBuffer :=
  let fr := DecompressionReaderBuffer.fill bits_count s.in_file s.not_yielded_bits
  let k := min bits_count fr.2.length
  (some (fr.2.take k ++ List.replicate (bits_count - k) false), ⟨fr.1, fr.2.drop k⟩)

/-- DecompressionDictionary (src/lzw.py:337-398): the code-indexed table and
the last used index. -/
structure DecompressionDictionary where
  dict : List (List Nat)
  last_used_index : Nat
deriving Repr, DecidableEq

/-- DecompressionDictionary.__init__ (src/lzw.py:342-349): the 256 singleton
byte words followed by the two placeholder entries b'0' (byte 48) at codes
256 and 257. -/
def DecompressionDictionary.init : DecompressionDictionary :=
  ⟨(List.range 256).map (fun i => [i]) ++ [[48], [48]], 257⟩

/-- DecompressionDictionary.__getitem__ (src/lzw.py:351-357); `none` models
the IndexError on an out-of-range code. -/
def DecompressionDictionary.getItem (d : DecompressionDictionary) (key : List Bool) :
    Option (List Nat) :=
  d.dict.get? (bitsToNat key)

/-- DecompressionDictionary.__contains__ (src/lzw.py:359-365): a code is "in"
the dictionary iff its value is at most last_used_index. -/
def DecompressionDictionary.containsCode (d : DecompressionDictionary)
    (item : List Bool) : Bool :=
  decide (bitsToNat item ≤ d.last_used_index)

/-- DecompressionDictionary.clear (src/lzw.py:367-372): only the index is
reset; the slots above 257 stay allocated. -/
def DecompressionDictionary.clear (d : DecompressionDictionary) :
    DecompressionDictionary :=
  ⟨d.dict, 257⟩

/-- DecompressionDictionary.add (src/lzw.py:374-384). -/
def DecompressionDictionary.add (d : DecompressionDictionary) (value : List Nat) :
    DecompressionDictionary :=
  let idx := d.last_used_index + 1
  if idx = d.dict.length then ⟨d.dict ++ [value], idx⟩
  else ⟨d.dict.set idx value, idx⟩

/-- DecompressionDictionary.is_full_in_order (src/lzw.py:393-398): the binary
representation of last_used_index contains no zero digit. -/
def DecompressionDictionary.is_full_in_order (d : DecompressionDictionary) : Bool :=
  (natToBits d.last_used_index).all (fun b => b)

/-- The known-or-unknown-code branch of the decompress loop
(src/lzw.py:435-440): an unknown code (anything above last_used_index) is
reconstructed as last_word plus its own first byte (the KwKwK rule), a known
code is looked up; either way a new word is added.  Returns the updated
dictionary and the new current word; errors model the source's IndexError on
an empty word or an out-of-range lookup. -/
def decompressNormalStep (dict : DecompressionDictionary) (last_word : List Nat)
    (current_bits : List Bool) :
    Except String (DecompressionDictionary × List Nat) :=
  if dict.containsCode current_bits = false then
    match last_word with
    | [] => Except.error "IndexError"
    | l0 :: _ =>
      let current_word := last_word ++ [l0]
      Except.ok (dict.add current_word, current_word)
  else
    match dict.getItem current_bits with
    | none => Except.error "IndexError"
    | some current_word =>
      match current_word with
      | [] => Except.error "IndexError"
      | c0 :: _ => Except.ok (dict.add (last_word ++ [c0]), current_word)

/-- The width bump after an insertion (src/lzw.py:443-444). -/
def bumpPadding (dict : DecompressionDictionary) (current_padding : Nat) : Nat :=
  if dict.is_full_in_order then current_padding + 1 else current_padding

/-- The while loop of DecompressionEngine.decompress (src/lzw.py:425-447),
with structural fuel; `none` means the loop had not terminated when the fuel
ran out. -/
def decompressLoop :
    Nat → DecompressionReaderBuffer → DecompressionDictionary → Nat →
    List Nat → List Bool → List Nat → Option (Except String (List Nat))
  | 0, _, _, _, _, _, _ => none
  | fuel + 1, drb, dict, current_padding, last_word, current_bits, out =>
    if bitsToNat current_bits = 257 then
      some (Except.ok (out ++ last_word))
    else
      let out := out ++ last_word
      if bitsToNat current_bits = 256 then
        let dict := dict.clear
        let r1 := drb.next_bits 9
        match r1.1 with
        | none => some (Except.error "TypeError")
        | some bits1 =>
          match dict.getItem bits1 with
          | none => some (Except.error "IndexError")
          | some lw =>
            let r2 := r1.2.next_bits 9
            match r2.1 with
            | none => some (Except.error "TypeError")
            | some bits2 => decompressLoop fuel r2.2 dict 9 lw bits2 out
      else
        match decompressNormalStep dict last_word current_bits with
        | Except.error e => some (Except.error e)
        | Except.ok (dict2, current_word) =>
          let p := bumpPadding dict2 current_padding
          let r := drb.next_bits p
          match r.1 with
          | none => some (Except.error "TypeError")
          | some bits2 => decompressLoop fuel r.2 dict2 p current_word bits2 out

/-- DecompressionEngine.decompress (src/lzw.py:412-447) with explicit fuel
for the loop. -/
def decompressFuel (fuel : Nat) (input : List Nat) :
    Option (Except String (List Nat)) :=
  let drb : DecompressionReaderBuffer := ⟨input, []⟩
  let dict := DecompressionDictionary.init
  let r1 := drb.next_bits 9
  match r1.1 with
  | none => some (Except.error "TypeError")
  | some bits1 =>
    match dict.getItem bits1 with
    | none => some (Except.error "IndexError")
    | some cw =>
      let r2 := r1.2.next_bits 9
      match r2.1 with
      | none => some (Except.error "TypeError")
      | some bits2 => decompressLoop fuel r2.2 dict 9 cw bits2 []

/-- DecompressionEngine.decompress with fuel that suffices for every
terminating run: a terminating loop consumes at least nine bits of input per
iteration, so `input.length + 2` iterations cover any stream that reaches
END_OF_DATA. -/
def decompress (input : List Nat) : Option (Except String (List Nat)) :=
  decompressFuel (input.length + 2) input

/-! Sanity checks of the embedding on the spec's concrete scenarios. -/

example : compress [65, 66] = Except.ok [32, 144, 160, 32] := by rfl

example : decompress [32, 144, 160, 32] = some (Except.ok [65, 66]) := by rfl

example : compress [65] = Except.ok [32, 192, 64] := by rfl

/-! Theorems for the claims. -/

/-- C1.  The round-trip claim `decompress (compress S) = S` fails at `S = []`:
`compress` does not return an output for the empty input at all — the source
evaluates `len(None)` in `CompressionDictionary.__getitem__` and dies with a
TypeError, so the composed round trip is undefined there. -/
theorem compress_roundtrip_fails_on_empty : isOkResult (compress []) = false := by rfl

/-- C7.  On the empty input the compressor does not produce an empty output;
it raises TypeError (src/lzw.py:287 evaluates `self.dict[None]`, and
src/lzw.py:96 calls `len(None)`). -/
theorem compress_empty_raises_type_error :
    compress [] = Except.error "TypeError" := by rfl

/-- C8.  When the byte source is exhausted, next_bits does not return the
end-of-stream sentinel its `Union[Bits, None]` signature advertises: it
returns an ordinary Bits object whose missing bits are false, here the
nine-bit code 0. -/
theorem next_bits_exhausted_returns_zero_bits :
    DecompressionReaderBuffer.next_bits ⟨[], []⟩ 9 =
      (some (List.replicate 9 false), ⟨[], []⟩) := by rfl

/-- C2.  In the dictionary-full branch of the compress loop the CLEAR code is
appended padded to `current_padding + 1` bits; with the padding at 12 (its
value whenever the dictionary is full), the CLEAR code goes out at 13 bits,
outside the claimed range [9, 12]. -/
theorem clear_emitted_beyond_max_width
    (dict : CompressionDictionary) (ob : CompressionBuffer) (w word : List Nat)
    (cw_bits : List Bool) (hfull : dict.is_full = true)
    (hget : dict.getItem w = some cw_bits) :
    compressMissStep dict ob 12 w word =
      Except.ok (dict.clear,
        (ob.append (pad cw_bits 12)).append (pad (natToBits 256) 13), 9) ∧
    (pad (natToBits 256) 13).length = 13 ∧ ¬ (pad (natToBits 256) 13).length ≤ 12 := by
  refine ⟨?_, by decide, by decide⟩
  simp [compressMissStep, hfull, hget]

/-- Witness for `clear_emitted_beyond_max_width` at a dictionary state with
last_used_code 4095, the state the compress loop is in whenever is_full
holds. -/
theorem clear_emitted_beyond_max_width_witness :
    compressMissStep ⟨[], 4095⟩ ⟨[], []⟩ 12 [65] [65, 66] =
      Except.ok ((⟨[], 4095⟩ : CompressionDictionary).clear,
        (((⟨[], []⟩ : CompressionBuffer).append (pad (natToBits 65) 12)).append
          (pad (natToBits 256) 13)), 9) ∧
    (pad (natToBits 256) 13).length = 13 ∧ ¬ (pad (natToBits 256) 13).length ≤ 12 :=
  clear_emitted_beyond_max_width ⟨[], 4095⟩ ⟨[], []⟩ [65] [65, 66] (natToBits 65)
    (by decide) (by decide)

/-- C3.  The CLEAR code is not emitted at the width current at its point of
emission: the preceding final code is appended at `current_padding` bits and
the CLEAR code at `current_padding + 1` bits (src/lzw.py:274-275), one more
than the width of the immediately preceding code. -/
theorem clear_width_is_preceding_width_plus_one
    (dict : CompressionDictionary) (ob : CompressionBuffer) (p : Nat)
    (w word : List Nat) (cw_bits : List Bool)
    (hfull : dict.is_full = true) (hget : dict.getItem w = some cw_bits)
    (hp : 9 ≤ p) :
    compressMissStep dict ob p w word =
      Except.ok (dict.clear,
        (ob.append (pad cw_bits p)).append (pad (natToBits 256) (p + 1)), 9) ∧
    (pad (natToBits 256) (p + 1)).length = p + 1 := by
  constructor
  · simp [compressMissStep, hfull, hget]
  · have h9 : (natToBits 256).length = 9 := by decide
    simp [pad, h9]
    omega

/-- Witness for `clear_width_is_preceding_width_plus_one`. -/
theorem clear_width_is_preceding_width_plus_one_witness :
    compressMissStep ⟨[], 4095⟩ ⟨[], []⟩ 12 [66] [66, 67] =
      Except.ok ((⟨[], 4095⟩ : CompressionDictionary).clear,
        (((⟨[], []⟩ : CompressionBuffer).append (pad (natToBits 66) 12)).append
          (pad (natToBits 256) (12 + 1))), 9) ∧
    (pad (natToBits 256) (12 + 1)).length = 12 + 1 :=
  clear_width_is_preceding_width_plus_one ⟨[], 4095⟩ ⟨[], []⟩ 12 [66] [66, 67]
    (natToBits 66) (by decide) (by decide) (by decide)

/-- C4.  After the decoder inserts code 4095 (binary all ones,
is_full_in_order) while reading at width 12, the width bump of
src/lzw.py:443-444 raises the read width to 13, beyond CODE_WIDTH_MAX = 12;
this is the state the decoder reaches on any compressor stream that fills
the dictionary, just before reading the 13-bit CLEAR code. -/
theorem decoder_width_bumps_past_max
    (dict : DecompressionDictionary) (h : dict.last_used_index = 4095) :
    bumpPadding dict 12 = 13 ∧ ¬ bumpPadding dict 12 ≤ 12 := by
  have hfull : dict.is_full_in_order = true := by
    unfold DecompressionDictionary.is_full_in_order
    rw [h]
    decide
  refine ⟨?_, ?_⟩ <;> simp [bumpPadding, hfull]

/-- Witness for `decoder_width_bumps_past_max`. -/
theorem decoder_width_bumps_past_max_witness :
    bumpPadding ⟨[], 4095⟩ 12 = 13 ∧ ¬ bumpPadding ⟨[], 4095⟩ 12 ≤ 12 :=
  decoder_width_bumps_past_max ⟨[], 4095⟩ rfl

/-- C10.  Calling add with last_used_code 4095 raises OverflowError without
inserting an entry, but next_code has already incremented last_used_code to
4096 when the exception leaves, so the state is not unchanged. -/
theorem add_on_full_dictionary_mutates_then_raises
    (d : CompressionDictionary) (new_key : List Nat)
    (h : d.last_used_code = 4095) :
    d.add new_key = Except.error ⟨d.dict, 4096⟩ := by
  obtain ⟨entries, last⟩ := d
  have h2 : last = 4095 := h
  subst h2
  simp only [CompressionDictionary.add, CompressionDictionary.next_code]
  rw [if_pos (by decide)]

/-- Witness for `add_on_full_dictionary_mutates_then_raises`. -/
theorem add_on_full_dictionary_mutates_then_raises_witness :
    CompressionDictionary.add ⟨[], 4095⟩ [1, 2] = Except.error ⟨[], 4096⟩ :=
  add_on_full_dictionary_mutates_then_raises ⟨[], 4095⟩ [1, 2] rfl

/-- C6 counterexample.  The stream 0x20 0xCB 0x20 0x20 holds the nine-bit
codes 65, 300, 257.  Code 300 is read while last_used_index is 257, so it is
strictly beyond last_code + 1 = 258, yet decompress does not abort with a
decode error: it treats 300 as the KwKwK case and returns the output
"AAA". -/
theorem decompress_accepts_code_beyond_next :
    decompress [32, 203, 32, 32] = some (Except.ok [65, 65, 65]) := by rfl

/-- C6 amended.  Any code that is not in the dictionary — every value above
last_used_index, not merely last_used_index + 1 — is handled by the KwKwK
reconstruction: the new word is last_word plus its own first byte, it is
added to the dictionary, and no error is raised. -/
theorem code_beyond_next_taken_as_kwkwk
    (dict : DecompressionDictionary) (l0 : Nat) (t : List Nat) (c : List Bool)
    (hbeyond : dict.last_used_index + 1 < bitsToNat c) :
    decompressNormalStep dict (l0 :: t) c =
      Except.ok (dict.add ((l0 :: t) ++ [l0]), (l0 :: t) ++ [l0]) := by
  have hc : dict.containsCode c = false := by
    simp only [DecompressionDictionary.containsCode, decide_eq_false_iff_not, not_le]
    omega
  simp [decompressNormalStep, hc]

/-- Witness for `code_beyond_next_taken_as_kwkwk`: code 300 against the fresh
decoder dictionary (last_used_index 257). -/
theorem code_beyond_next_taken_as_kwkwk_witness :
    decompressNormalStep DecompressionDictionary.init [65] (natToBits 300) =
      Except.ok (DecompressionDictionary.init.add ([65] ++ [65]), [65] ++ [65]) :=
  code_beyond_next_taken_as_kwkwk DecompressionDictionary.init 65 [] (natToBits 300)
    (by decide)

/-- Unfolding lemma for `yieldsFrom` at positive counts. -/
theorem yieldsFrom_succ (s : ReaderBuffer) (n : Nat) :
    s.yieldsFrom (n + 1) =
      match s.next_bytes with
      | none => none
      | some (b, s2) =>
        match s2.yieldsFrom n with
        | none => none
        | some rest => some (b :: rest) := rfl

/-- The initial reader state satisfies the invariant and has the whole file
unread. -/
theorem readerInv_init (in_file : List Nat) (B : Nat) (hB : 1 ≤ B) :
    ReaderInv (ReaderBuffer.init in_file B) ∧
      (ReaderBuffer.init in_file B).unread = in_file := by
  constructor
  · refine ⟨hB, hB, Nat.zero_le _, ?_, ?_⟩
    · simp only [ReaderBuffer.init, List.length_take]
      exact Nat.min_le_left _ _
    · intro hlt
      simp only [ReaderBuffer.init, List.length_take] at hlt ⊢
      rcases Nat.le_total B in_file.length with hc | hc
      · rw [Nat.min_eq_left hc] at hlt
        omega
      · exact List.drop_eq_nil_iff.mpr hc
  · simp [ReaderBuffer.unread, ReaderBuffer.init]

/-- When everything has been yielded, next_bytes answers None (the end-of-input
signal) and leaves the state unchanged; the source's `current_index <
buffer_size` conjunct always holds since the index never reaches the buffer
size. -/
theorem next_bytes_at_end (s : ReaderBuffer) (hinv : ReaderInv s)
    (hun : s.unread = []) : s.next_bytes = some (none, s) := by
  obtain ⟨hB, hiB, hil, hlB, hshort⟩ := hinv
  have hdrop : s.current_bytes.drop s.current_index = [] ∧ s.in_file = [] := by
    simpa [ReaderBuffer.unread] using hun
  have hidx : s.current_index = s.current_bytes.length := by
    have := List.drop_eq_nil_iff.mp hdrop.1
    omega
  unfold ReaderBuffer.next_bytes
  rw [if_pos ⟨hidx, hiB⟩]

/-- One successful next_bytes call: the head of the unread sequence comes
back, and the new state again satisfies the invariant with the tail
unread. -/
theorem next_bytes_step (s : ReaderBuffer) (hinv : ReaderInv s)
    (b : Nat) (U : List Nat) (hun : s.unread = b :: U) :
    ∃ s2, s.next_bytes = some (some b, s2) ∧ ReaderInv s2 ∧ s2.unread = U := by
  obtain ⟨hB, hiB, hil, hlB, hshort⟩ := hinv
  have hlt : s.current_index < s.current_bytes.length := by
    rcases Nat.lt_or_ge s.current_index s.current_bytes.length with h | h
    · exact h
    · exfalso
      have hdrop : s.current_bytes.drop s.current_index = [] :=
        List.drop_eq_nil_iff.mpr h
      rcases Nat.lt_or_ge s.current_bytes.length s.buffer_size with hc | hc
      · have hf := hshort hc
        rw [ReaderBuffer.unread, hdrop, hf] at hun
        simp at hun
      · omega
  have hdropc : s.current_bytes.drop s.current_index =
      s.current_bytes.get ⟨s.current_index, hlt⟩ ::
        s.current_bytes.drop (s.current_index + 1) := by
    exact List.drop_eq_getElem_cons hlt
  rw [ReaderBuffer.unread, hdropc, List.cons_append] at hun
  injection hun with hb htail
  have hmain : s.next_bytes =
      (if s.current_index = s.buffer_size - 1 then
        some (some b,
          ⟨s.in_file.drop s.buffer_size, 0, s.buffer_size, s.in_file.take s.buffer_size⟩)
      else
        some (some b,
          ⟨s.in_file, s.current_index + 1, s.buffer_size, s.current_bytes⟩)) := by
    unfold ReaderBuffer.next_bytes
    rw [if_neg (fun hcc => absurd hcc.1 (Nat.ne_of_lt hlt))]
    simp only [List.get?_eq_get hlt, hb]
  by_cases hsplit : s.current_index = s.buffer_size - 1
  · have hlen : s.current_bytes.length = s.buffer_size := by omega
    have hUfile : U = s.in_file := by
      rw [← htail]
      have hd2 : s.current_bytes.drop (s.current_index + 1) = [] :=
        List.drop_eq_nil_iff.mpr (by omega)
      rw [hd2, List.nil_append]
    refine ⟨⟨s.in_file.drop s.buffer_size, 0, s.buffer_size,
      s.in_file.take s.buffer_size⟩, ?_, ?_, ?_⟩
    · rw [hmain, if_pos hsplit]
    · refine ⟨hB, hB, Nat.zero_le _, ?_, ?_⟩
      · simp only [List.length_take]
        exact Nat.min_le_left _ _
      · intro hlt2
        simp only [List.length_take] at hlt2 ⊢
        rcases Nat.le_total s.buffer_size s.in_file.length with hc | hc
        · rw [Nat.min_eq_left hc] at hlt2
          omega
        · exact List.drop_eq_nil_iff.mpr hc
    · simp [ReaderBuffer.unread, hUfile]
  · refine ⟨⟨s.in_file, s.current_index + 1, s.buffer_size, s.current_bytes⟩,
      ?_, ?_, ?_⟩
    · rw [hmain, if_neg hsplit]
    · exact ⟨hB, (by omega : s.current_index + 1 < s.buffer_size), hlt, hlB, hshort⟩
    · simpa [ReaderBuffer.unread] using htail

/-- Successive next_bytes calls yield exactly the unread bytes, then None. -/
theorem yieldsFrom_of_unread (U : List Nat) :
    ∀ s : ReaderBuffer, ReaderInv s → s.unread = U →
      s.yieldsFrom (U.length + 1) = some (U.map some ++ [none]) := by
  induction U with
  | nil =>
    intro s hinv hun
    rw [List.length_nil, yieldsFrom_succ, next_bytes_at_end s hinv hun]
    rfl
  | cons b U ih =>
    intro s hinv hun
    obtain ⟨s2, hnb, hinv2, hun2⟩ := next_bytes_step s hinv b U hun
    rw [List.length_cons, yieldsFrom_succ]
    simp only [hnb]
    rw [ih s2 hinv2 hun2]
    simp

/-- C9 counterexample.  With buffer size 2 and a four-byte input — an input
whose size is an exact multiple of the buffer size — next_bytes yields every
input byte in order and then None, contrary to the claimed mishandling. -/
theorem next_bytes_exact_multiple_yields_all :
    ReaderBuffer.yieldsFrom (ReaderBuffer.init [10, 20, 30, 40] 2) 5 =
      some [some 10, some 20, some 30, some 40, none] := by rfl

/-- C9 amended.  For every input and every buffer size of at least one,
next_bytes yields the input bytes in order followed by None; the condition
`current_index < buffer_size` in the source's None branch is vacuous because
the index never reaches the buffer size, so end of input is handled
correctly, also when the input size is an exact multiple of the buffer
size. -/
theorem next_bytes_yields_input_then_none (in_file : List Nat) (B : Nat)
    (hB : 1 ≤ B) :
    (ReaderBuffer.init in_file B).yieldsFrom (in_file.length + 1) =
      some (in_file.map some ++ [none]) := by
  obtain ⟨hinv, hun⟩ := readerInv_init in_file B hB
  exact yieldsFrom_of_unread in_file (ReaderBuffer.init in_file B) hinv hun

/-- Witness for `next_bytes_yields_input_then_none`. -/
theorem next_bytes_yields_input_then_none_witness :
    (ReaderBuffer.init [7, 8] 3).yieldsFrom (([7, 8] : List Nat).length + 1) =
      some (([7, 8] : List Nat).map some ++ [none]) :=
  next_bytes_yields_input_then_none [7, 8] 3 (by decide)

/-- A list of false bits has integer value zero. -/
theorem bitsToNat_replicate_false (q : Nat) :
    bitsToNat (List.replicate q false) = 0 := by
  induction q with
  | zero => rfl
  | succ n ih =>
    rw [List.replicate_succ]
    unfold bitsToNat at ih ⊢
    simpa using ih

/-- next_bits on an exhausted source with an empty bit backlog yields the
all-false bit pattern and leaves the state unchanged. -/
theorem next_bits_empty_source (c : Nat) :
    DecompressionReaderBuffer.next_bits ⟨[], []⟩ c =
      (some (List.replicate c false), ⟨[], []⟩) := by
  unfold DecompressionReaderBuffer.next_bits DecompressionReaderBuffer.fill
  simp

/-- Insertion keeps the decoder table nonempty. -/
theorem add_dict_length_pos (d : DecompressionDictionary) (v : List Nat)
    (h : 0 < d.dict.length) : 0 < (d.add v).dict.length := by
  simp only [DecompressionDictionary.add]
  split
  · simp
  · simpa using h

/-- Insertion of a nonempty word keeps every table entry nonempty. -/
theorem add_dict_all_nonempty (d : DecompressionDictionary) (v : List Nat)
    (hall : ∀ w ∈ d.dict, w ≠ []) (hv : v ≠ []) :
    ∀ w ∈ (d.add v).dict, w ≠ [] := by
  simp only [DecompressionDictionary.add]
  split
  · intro w hw
    rcases List.mem_append.mp hw with h | h
    · exact hall w h
    · rw [List.mem_singleton] at h
      subst h
      exact hv
  · intro w hw
    rcases List.mem_or_eq_of_mem_set hw with h | h
    · exact hall w h
    · subst h
      exact hv

/-- Once the decompressor's bit source is exhausted with an empty backlog,
every further read yields the all-zero code, which the loop treats as an
ordinary known code: it keeps writing output and inserting words and never
reaches END_OF_DATA, so for every amount of fuel the loop returns none. -/
theorem decompressLoop_exhausted_none (n : Nat) :
    ∀ (dict : DecompressionDictionary) (p q : Nat) (lw out : List Nat),
      0 < dict.dict.length → (∀ w ∈ dict.dict, w ≠ []) → lw ≠ [] →
      decompressLoop n ⟨[], []⟩ dict p lw (List.replicate q false) out = none := by
  induction n with
  | zero =>
    intro dict p q lw out _ _ _
    rfl
  | succ m ih =>
    intro dict p q lw out hlen hall hlw
    have h0 : bitsToNat (List.replicate q false) = 0 := bitsToNat_replicate_false q
    obtain ⟨a, rest, hd⟩ : ∃ a rest, dict.dict = a :: rest := by
      cases hcd : dict.dict with
      | nil => rw [hcd] at hlen; simp at hlen
      | cons a rest => exact ⟨a, rest, rfl⟩
    have hane : a ≠ [] := hall a (by rw [hd]; exact List.mem_cons_self a rest)
    obtain ⟨c0, t0, hc⟩ : ∃ c0 t0, a = c0 :: t0 := by
      cases a with
      | nil => exact absurd rfl hane
      | cons c0 t0 => exact ⟨c0, t0, rfl⟩
    subst hc
    have hcont : dict.containsCode (List.replicate q false) = true := by
      simp [DecompressionDictionary.containsCode, h0]
    have hget : dict.getItem (List.replicate q false) = some (c0 :: t0) := by
      unfold DecompressionDictionary.getItem
      rw [h0, hd]
      rfl
    have hstep : decompressNormalStep dict lw (List.replicate q false) =
        Except.ok (dict.add (lw ++ [c0]), c0 :: t0) := by
      unfold decompressNormalStep
      rw [hcont, hget]
      simp
    rw [decompressLoop]
    simp only [h0, hstep, next_bits_empty_source]
    norm_num
    exact ih (dict.add (lw ++ [c0])) (bumpPadding (dict.add (lw ++ [c0])) p)
      (bumpPadding (dict.add (lw ++ [c0])) p) (c0 :: t0) (out ++ lw)
      (add_dict_length_pos dict (lw ++ [c0]) hlen)
      (add_dict_all_nonempty dict (lw ++ [c0]) hall (by simp))
      (List.cons_ne_nil c0 t0)

/-- C5.  The stream 0x20 0x90 is the compressed output of "AB" truncated
before its END_OF_DATA code.  decompress neither terminates with a
malformed-input error nor terminates at all: next_bits silently zero-fills
once the source is exhausted, the loop keeps reading code 0, and for every
amount of fuel the loop is still running (and keeps appending output). -/
theorem decompress_truncated_stream_diverges (n : Nat) :
    decompressFuel n [32, 144] = none := by
  cases n with
  | zero => rfl
  | succ m =>
    show decompressLoop m ⟨[], []⟩ (DecompressionDictionary.init.add [65, 64]) 9 [64]
      (List.replicate 9 false) [65] = none
    exact decompressLoop_exhausted_none m (DecompressionDictionary.init.add [65, 64])
      9 9 [64] [65] (by decide) (by decide) (by decide)

end LZW
